import Mathlib

/-!
Verification of the UAV-to-ground allocation solver (`program.cpp`).

The development shallowly embeds the solver's core: the bandwidth (capacity)
field builder, the decay lookup tables, the per-flow candidate generator,
the greedy decoder, and the local-search driver.  C++ `double` values are
modelled as real numbers (exact arithmetic), `int` values as `ℤ` (no use
site overflows), and the mutable capacity array as a function
`ℤ × ℤ × ℤ → ℝ` updated by explicit state passing.
-/

namespace UAV

/-! ### Embedded definitions (translated from `program.cpp`) -/

/-- A data flow, as read from the input (`struct Flow`). -/
structure Flow where
  f : ℤ
  x : ℤ
  y : ℤ
  tf : ℤ
  s : ℝ
  m1 : ℤ
  n1 : ℤ
  m2 : ℤ
  n2 : ℤ
deriving Inhabited

/-- One schedule entry (`struct ScheduleItem`): at time `t`, relay `(x, y)`
delivers amount `z`. -/
structure ScheduleItem where
  t : ℤ
  x : ℤ
  y : ℤ
  z : ℝ
deriving Inhabited

/-- Precomputed candidate information (`struct CandidateInfo`). -/
structure CandidateInfo where
  ux : ℤ
  uy : ℤ
  potential : ℝ
  avg_bandwidth : ℝ
  distance : ℤ
  peak_times : List ℤ
  total_capacity : ℝ
deriving Inhabited

/-- Precomputed time-slot information (`struct TimeSlotInfo`). -/
structure TimeSlotInfo where
  t : ℤ
  bandwidth : ℝ
  delay_factor : ℝ
  value : ℝ
deriving Inhabited

/-- Embedding of `build_bandwidth_matrix`: the bandwidth of cell `(x, y)` at
time `t`, from base bandwidth `uav_b` and phase `uav_phi`.  The C++ table is
modelled as a function of `(t, x, y)`; `%` on C++ `int` truncates toward
zero, hence `Int.tmod`. -/
noncomputable def build_bandwidth_matrix (uav_b : ℤ → ℤ → ℝ) (uav_phi : ℤ → ℤ → ℤ)
    (t x y : ℤ) : ℝ :=
  let tau := Int.tmod (uav_phi x y + t) 10
  if 3 ≤ tau ∧ tau ≤ 6 then uav_b x y
  else if tau = 2 ∨ tau = 7 then uav_b x y / 2
  else 0

/-- Embedding of the first half of `build_lookup_tables`:
`g_distance_factor[d] = pow(2.0, -0.1*d)` for `d = 0 .. max_distance`. -/
noncomputable def build_distance_table (max_distance : ℕ) : List ℝ :=
  (List.range (max_distance + 1)).map (fun (d : ℕ) => (2 : ℝ) ^ (-(0.1 : ℝ) * d))

/-- Embedding of the second half of `build_lookup_tables`:
`g_delay_factor[dt] = 10.0 / (dt + 10.0)` for `dt = 0 .. max_time`. -/
noncomputable def build_delay_table (max_time : ℕ) : List ℝ :=
  (List.range (max_time + 1)).map (fun (dt : ℕ) => 10 / ((dt : ℝ) + 10))

/-- The clamped lookup pattern used throughout the solver:
`table[min(i, (int)table.size()-1)]`.  Indices are `int` in C++; a negative
index is undefined behaviour there and is mapped to `0` here via `toNat`. -/
noncomputable def lookup_clamped (table : List ℝ) (i : ℤ) : ℝ :=
  table.getD (min i ((table.length : ℤ) - 1)).toNat 0

/-- Embedding of `compute_flow_score_fast` (lines 274-300): the per-flow
score from a schedule.  The two accumulation loops and the landing-UAV set
are modelled with list sums and `dedup`. -/
noncomputable def compute_flow_score_fast (dist_table delay_table : List ℝ)
    (flow : Flow) (schedule : List ScheduleItem) : ℝ :=
  if flow.s ≤ 1e-9 then 0
  else
    let transmitted := (schedule.map ScheduleItem.z).sum
    let delay_sum := (schedule.map (fun item =>
        lookup_clamped delay_table (item.t - flow.tf) * (item.z / flow.s))).sum
    let dist_sum := (schedule.map (fun item =>
        (item.z / flow.s) *
          lookup_clamped dist_table (|flow.x - item.x| + |flow.y - item.y|))).sum
    let landing_uavs := (schedule.map (fun item => (item.x, item.y))).dedup
    let u2g := min (transmitted / flow.s) 1
    let k : ℕ := if landing_uavs.isEmpty then 1 else landing_uavs.length
    let land := 1 / (k : ℝ)
    100 * (0.4 * u2g + 0.2 * delay_sum + 0.3 * dist_sum + 0.1 * land)

/-- Pointwise update of the remaining-capacity table, the counterpart of
`remaining_capacity[cidx] -= use` on the flat array. -/
noncomputable def update_cap (rem : ℤ × ℤ × ℤ → ℝ) (p : ℤ × ℤ × ℤ) (v : ℝ) :
    ℤ × ℤ × ℤ → ℝ :=
  fun q => if q = p then v else rem q

/-- Embedding of the slot-consumption loop of `greedy_allocate` (lines
349-361, reused at 369-381): walk the slots in their stored order; stop when
the remaining need falls to `1e-9` or below; at each slot with available
capacity above `1e-9`, take `min(avail, need)`, decrement the shared table
and emit a schedule item at `(slot.t, ux, uy)`.  Returns the emitted items,
the final remaining need, and the updated table. -/
noncomputable def alloc_slots (ux uy : ℤ) :
    List TimeSlotInfo → ℝ → (ℤ × ℤ × ℤ → ℝ) →
      List ScheduleItem × ℝ × (ℤ × ℤ × ℤ → ℝ)
  | [], need, rem => ([], need, rem)
  | slot :: rest, need, rem =>
    if need ≤ 1e-9 then ([], need, rem)
    else
      let avail := rem (slot.t, ux, uy)
      if 1e-9 < avail then
        let used := min avail need
        let rem1 := update_cap rem (slot.t, ux, uy) (avail - used)
        let out := alloc_slots ux uy rest (need - used) rem1
        (⟨slot.t, ux, uy, used⟩ :: out.1, out.2.1, out.2.2)
      else
        alloc_slots ux uy rest need rem

/-- The candidate-index clamp of the decoder (lines 337-341): an index at or
beyond the flow's candidate count is remapped to `0`. -/
def resolve_idx (cands : List CandidateInfo) (sol_idx : ℕ) : ℕ :=
  if cands.length ≤ sol_idx then 0 else sol_idx

/-- One consumption pass of the decoder against candidate `ci`: look up the
candidate and its precomputed slot list and run the slot loop. -/
noncomputable def decode_phase (cands : List CandidateInfo)
    (slots : List (List TimeSlotInfo)) (ci : ℕ) (need : ℝ)
    (rem : ℤ × ℤ × ℤ → ℝ) : List ScheduleItem × ℝ × (ℤ × ℤ × ℤ → ℝ) :=
  alloc_slots (cands.getD ci default).ux (cands.getD ci default).uy
    (slots.getD ci []) need rem

/-- Embedding of the per-flow body of the decoder loop (lines 335-383):
resolve the chosen candidate, clamping an out-of-range index to `0`; consume
that candidate's slots; then, if more than 10% of the demand is still unmet
and the flow has a second candidate, consume the slots of the next candidate
in rank order (wrap-around modulo the candidate count). -/
noncomputable def decode_flow (cands : List CandidateInfo)
    (slots : List (List TimeSlotInfo)) (fl : Flow) (sol_idx : ℕ)
    (rem : ℤ × ℤ × ℤ → ℝ) : List ScheduleItem × (ℤ × ℤ × ℤ → ℝ) :=
  let cand_idx := resolve_idx cands sol_idx
  let r1 := decode_phase cands slots cand_idx fl.s rem
  if fl.s * 0.1 < r1.2.1 ∧ 1 < cands.length then
    let r2 := decode_phase cands slots ((cand_idx + 1) % cands.length) r1.2.1 r1.2.2
    (r1.1 ++ r2.1, r2.2.2)
  else
    (r1.1, r1.2.2)

/-- The strict flow-priority order of the decoder (lines 330-333): earlier
start time first, ties broken by larger demand. -/
noncomputable def flow_before (flows : List Flow) (a b : ℕ) : Prop :=
  let fa := flows.getD a default
  let fb := flows.getD b default
  if fa.tf ≠ fb.tf then fa.tf < fb.tf else fb.s < fa.s

open Classical in
/-- Embedding of the index sort of `greedy_allocate` (lines 328-333): the
flow indices `0 .. FN-1` ordered by `flow_before`. -/
noncomputable def order_flows (flows : List Flow) : List ℕ :=
  (List.range flows.length).mergeSort (fun a b => decide (¬ flow_before flows b a))

/-- One step of the decoder's flow loop acting on the pair
(per-flow schedules, remaining-capacity table). -/
noncomputable def decode_step (cands : List (List CandidateInfo))
    (slots : List (List (List TimeSlotInfo))) (flows : List Flow)
    (solution : List ℕ)
    (st : List (List ScheduleItem) × (ℤ × ℤ × ℤ → ℝ)) (idx : ℕ) :
    List (List ScheduleItem) × (ℤ × ℤ × ℤ → ℝ) :=
  let r := decode_flow (cands.getD idx []) (slots.getD idx [])
    (flows.getD idx default) (solution.getD idx 0) st.2
  (st.1.set idx (st.1.getD idx [] ++ r.1), r.2)

/-- Embedding of `greedy_allocate` (lines 304-397): initialize the working
capacity table from the capacity field `cap`, decode every flow in priority
order, then compute the demand-weighted aggregate score. -/
noncomputable def greedy_allocate (dist_table delay_table : List ℝ)
    (cands : List (List CandidateInfo)) (slots : List (List (List TimeSlotInfo)))
    (cap : ℤ × ℤ × ℤ → ℝ) (flows : List Flow) (solution : List ℕ) :
    List (List ScheduleItem) × ℝ :=
  let init : List (List ScheduleItem) × (ℤ × ℤ × ℤ → ℝ) :=
    (List.replicate flows.length [], cap)
  let final := (order_flows flows).foldl (decode_step cands slots flows solution) init
  let schedules := final.1
  let total_s := (flows.map Flow.s).sum
  let weighted := ((List.range flows.length).map (fun i =>
      compute_flow_score_fast dist_table delay_table (flows.getD i default)
        (schedules.getD i []) * (flows.getD i default).s)).sum
  (schedules, weighted / (total_s + 1e-12))

/-- Total amount delivered at cell-time `p` by a list of schedule items. -/
noncomputable def delivered_at (items : List ScheduleItem) (p : ℤ × ℤ × ℤ) : ℝ :=
  (items.map (fun item => if (item.t, item.x, item.y) = p then item.z else 0)).sum

/-- Total amount delivered by a list of schedule items. -/
noncomputable def total_z (items : List ScheduleItem) : ℝ :=
  (items.map ScheduleItem.z).sum

/-- Total amount delivered at cell-time `p` summed over all flows'
schedules. -/
noncomputable def delivered_all (schedules : List (List ScheduleItem))
    (p : ℤ × ℤ × ℤ) : ℝ :=
  (schedules.map (fun sch => delivered_at sch p)).sum

/-- The distinct cell-times touched by a list of schedule items. -/
def cells_of (items : List ScheduleItem) : List (ℤ × ℤ × ℤ) :=
  (items.map (fun it => (it.t, it.x, it.y))).dedup

/-- The total capacity decremented from the shared table between the states
`rem` (before) and `rem2` (after), over the cells touched by `items`. -/
noncomputable def consumed_on (items : List ScheduleItem)
    (rem rem2 : ℤ × ℤ × ℤ → ℝ) : ℝ :=
  ((cells_of items).map (fun p => rem p - rem2 p)).sum

/-- Integer interval `[a, b)` as a list, for the C++ `for (t = a; t < b; t++)`
loops. -/
def int_range (a b : ℤ) : List ℤ :=
  (List.range (b - a).toNat).map (fun k => a + k)

/-- All cells of the flow's rectangle in row-major order (lines 149-150). -/
def rect_cells (fl : Flow) : List (ℤ × ℤ) :=
  (List.range (fl.m2 - fl.m1 + 1).toNat).flatMap (fun i =>
    (List.range (fl.n2 - fl.n1 + 1).toNat).map (fun j =>
      ((fl.m1 : ℤ) + i, (fl.n1 : ℤ) + j)))

/-- Accumulator of the per-candidate metrics loop (lines 156-186). -/
structure MetricsAcc where
  total_bw : ℝ
  weighted_bw : ℝ
  count : ℕ
  max_bw : ℝ
  peak_times : List ℤ

open Classical in
/-- One iteration of the metrics loop (lines 164-186): skip times with
bandwidth at most `1e-9`; otherwise accumulate totals and track the set of
peak times (ties within `1e-9` all kept). -/
noncomputable def metrics_step (delay_table dist_table : List ℝ) (tf distance : ℤ)
    (bw_at : ℤ → ℝ) (acc : MetricsAcc) (t : ℤ) : MetricsAcc :=
  let bw := bw_at t
  if 1e-9 < bw then
    let delay_f := lookup_clamped delay_table (t - tf)
    let dist_f := lookup_clamped dist_table distance
    { total_bw := acc.total_bw + bw
      weighted_bw := acc.weighted_bw + bw * delay_f * dist_f
      count := acc.count + 1
      max_bw := if acc.max_bw < bw then bw else acc.max_bw
      peak_times :=
        if acc.max_bw < bw then [t]
        else if |bw - acc.max_bw| < 1e-9 then acc.peak_times ++ [t]
        else acc.peak_times }
  else acc

open Classical in
/-- Metrics and potential score for one raw candidate cell (lines 151-196). -/
noncomputable def make_candidate (dist_table delay_table : List ℝ)
    (pre_bw : ℤ → ℤ → ℤ → ℝ) (T max_time_window : ℤ) (fl : Flow)
    (ux uy : ℤ) : CandidateInfo :=
  let distance := |fl.x - ux| + |fl.y - uy|
  let t_end := min T (fl.tf + max_time_window)
  let acc := (int_range fl.tf t_end).foldl
    (metrics_step delay_table dist_table fl.tf distance (fun t => pre_bw t ux uy))
    ⟨0, 0, 0, 0, []⟩
  let distance_penalty := (distance : ℝ) * 0.5
  let capacity_score := if 1e-9 < acc.total_bw then Real.log (1 + acc.total_bw) else 0
  let quality_score := acc.weighted_bw
  { ux := ux
    uy := uy
    potential := quality_score * 0.6 + capacity_score * 0.3 - distance_penalty * 0.1
    avg_bandwidth := if 0 < acc.count then acc.total_bw / acc.count else 0
    distance := distance
    peak_times := acc.peak_times
    total_capacity := acc.total_bw }

open Classical in
/-- The raw candidate list after the admission filter (lines 148-203): every
rectangle cell whose window capacity exceeds 5% of the demand or whose
distance is at most `2`. -/
noncomputable def raw_candidates (dist_table delay_table : List ℝ)
    (pre_bw : ℤ → ℤ → ℤ → ℝ) (T max_time_window : ℤ) (fl : Flow) :
    List CandidateInfo :=
  ((rect_cells fl).map (fun c =>
      make_candidate dist_table delay_table pre_bw T max_time_window fl c.1 c.2)).filter
    (fun cand => decide (fl.s * 0.05 < cand.total_capacity ∨ cand.distance ≤ 2))

open Classical in
/-- The potential sort of the raw candidates (lines 205-209), descending. -/
noncomputable def sort_candidates (raw : List CandidateInfo) : List CandidateInfo :=
  raw.mergeSort (fun a b => decide (b.potential ≤ a.potential))

/-- The adaptive top-K bound (lines 211-214):
`max(2, min(8, rectangle size, raw candidate count))`, over C++ `int`. -/
def top_k_of (fl : Flow) (raw_count : ℕ) : ℤ :=
  max 2 (min 8 (min ((fl.m2 - fl.m1 + 1) * (fl.n2 - fl.n1 + 1)) (raw_count : ℤ)))

/-- The diversity test of the selection loop (lines 221-228): the candidate
sits within distance `1` of an already kept candidate and its potential is
below 80% of that candidate's. -/
def too_close (c : CandidateInfo) (kept : List CandidateInfo) : Prop :=
  ∃ fc ∈ kept, |c.ux - fc.ux| + |c.uy - fc.uy| ≤ 1 ∧ c.potential < fc.potential * 0.8

open Classical in
/-- The diversity selection loop (lines 217-232): keep scanning the sorted
tail while fewer than `top_k` candidates are kept, appending candidates that
are not too close to a kept one. -/
noncomputable def select_diverse (top_k : ℤ) :
    List CandidateInfo → List CandidateInfo → List CandidateInfo
  | [], kept => kept
  | c :: rest, kept =>
    if (kept.length : ℤ) < top_k then
      if too_close c kept then select_diverse top_k rest kept
      else select_diverse top_k rest (kept ++ [c])
    else kept

/-- The final candidate list of one flow (lines 144-234).  On an empty raw
candidate list the C++ code dereferences `raw_candidates[0]`, which is
undefined behaviour; that case is modelled as the empty list. -/
noncomputable def build_flow_candidates (dist_table delay_table : List ℝ)
    (pre_bw : ℤ → ℤ → ℤ → ℝ) (T max_time_window : ℤ) (fl : Flow) :
    List CandidateInfo :=
  let raw := raw_candidates dist_table delay_table pre_bw T max_time_window fl
  let sorted := sort_candidates raw
  match sorted with
  | [] => []
  | c0 :: rest => select_diverse (top_k_of fl raw.length) rest [c0]

/-- The one-cell zero-bandwidth flow used as a concrete counterexample
input. -/
noncomputable def unit_flow : Flow :=
  { f := 0, x := 0, y := 0, tf := 0, s := 1, m1 := 0, n1 := 0, m2 := 0, n2 := 0 }

/-- State of the local-search loop (lines 426-499).  The pseudo-random
generator is modelled as a stream `rng : ℕ → ℕ` of draws together with the
position `pos` of the next draw; each C++ `rng()` call consumes one draw. -/
structure SearchState where
  solution : List ℕ
  best_solution : List ℕ
  best_score : ℝ
  no_improve : ℕ
  problematic : List ℕ
  pos : ℕ

/-- The random-exploration inner loop (lines 463-470): `num_changes` times,
draw a flow index; if that flow has more than one candidate, draw a new
candidate index for it (the second draw happens only in that case, as in the
C++ short-circuit). -/
def explore_changes (cands : List (List CandidateInfo)) (flows_len : ℕ)
    (rng : ℕ → ℕ) : ℕ → ℕ → List ℕ → List ℕ × ℕ
  | 0, pos, sol => (sol, pos)
  | c + 1, pos, sol =>
    let flow_idx := rng pos % flows_len
    let num_cands := (cands.getD flow_idx []).length
    if 1 < num_cands then
      explore_changes cands flows_len rng c (pos + 2)
        (sol.set flow_idx (rng (pos + 1) % num_cands))
    else
      explore_changes cands flows_len rng c (pos + 1) sol

/-- The mutation step of one local-search iteration (lines 452-471).  When
problematic flows exist, a first draw decides (with weight 7/10) between the
problematic-flow branch and random exploration; when none exist the C++ `&&`
short-circuits and no draw is consumed. -/
def mutate_solution (cands : List (List CandidateInfo)) (flows_len : ℕ)
    (problematic : List ℕ) (rng : ℕ → ℕ) (pos : ℕ) (sol : List ℕ) :
    List ℕ × ℕ :=
  if problematic ≠ [] ∧ rng pos % 10 < 7 then
    let idx := problematic.getD (rng (pos + 1) % problematic.length) 0
    let num_cands := (cands.getD idx []).length
    if 1 < num_cands then
      (sol.set idx (rng (pos + 2) % num_cands), pos + 3)
    else (sol, pos + 2)
  else
    let start := if problematic = [] then pos else pos + 1
    let num_changes := rng start % 2 + 1
    explore_changes cands flows_len rng num_changes (start + 1) sol

open Classical in
/-- The problematic-flow detection (lines 441-449 and 482-491): flows whose
delivered total is below 80% of their demand. -/
noncomputable def problematic_of (flows : List Flow)
    (schedules : List (List ScheduleItem)) : List ℕ :=
  (List.range flows.length).filter (fun i =>
    decide (total_z (schedules.getD i []) < (flows.getD i default).s * 0.8))

open Classical in
/-- One iteration of the local-search loop (lines 451-497): mutate, decode,
accept only on a strict improvement beyond `1e-9`, otherwise keep the last
accepted solution and bump the stagnation counter.  Once the counter passes
`20` the C++ loop has broken; further iterations leave the state unchanged. -/
noncomputable def local_step (dist_table delay_table : List ℝ)
    (cands : List (List CandidateInfo)) (slots : List (List (List TimeSlotInfo)))
    (cap : ℤ × ℤ × ℤ → ℝ) (flows : List Flow) (rng : ℕ → ℕ)
    (st : SearchState) : SearchState :=
  if 20 < st.no_improve then st
  else
    let m := mutate_solution cands flows.length st.problematic rng st.pos st.solution
    let r := greedy_allocate dist_table delay_table cands slots cap flows m.1
    if st.best_score + 1e-9 < r.2 then
      { solution := m.1, best_solution := m.1, best_score := r.2,
        no_improve := 0, problematic := problematic_of flows r.1, pos := m.2 }
    else
      { st with no_improve := st.no_improve + 1, pos := m.2 }

/-- The full local-search driver (lines 426-499): build the initial
problematic-flow set from the initial solution's decode and iterate. -/
noncomputable def local_search (dist_table delay_table : List ℝ)
    (cands : List (List CandidateInfo)) (slots : List (List (List TimeSlotInfo)))
    (cap : ℤ × ℤ × ℤ → ℝ) (flows : List Flow) (rng : ℕ → ℕ)
    (solution : List ℕ) (current_score : ℝ) (max_iterations : ℕ) : SearchState :=
  (local_step dist_table delay_table cands slots cap flows rng)^[max_iterations]
    { solution := solution, best_solution := solution, best_score := current_score,
      no_improve := 0,
      problematic := problematic_of flows
        (greedy_allocate dist_table delay_table cands slots cap flows solution).1,
      pos := 0 }

/-- The initial search state used by the local-search witnesses. -/
noncomputable def ls_state0 : SearchState :=
  { solution := [], best_solution := [], best_score := 0, no_improve := 0,
    problematic := [], pos := 0 }

/-! ### Theorems -/

theorem getD_range_map (f : ℕ → ℝ) (n d : ℕ) (h : d < n) :
    ((List.range n).map f).getD d 0 = f d := by
  rw [List.getD_eq_getElem?_getD]
  simp [List.getElem?_map, List.getElem?_range, h]

theorem build_distance_table_getD (max_distance d : ℕ) (h : d ≤ max_distance) :
    (build_distance_table max_distance).getD d 0 = (2 : ℝ) ^ (-(0.1 : ℝ) * d) := by
  unfold build_distance_table
  exact getD_range_map _ _ _ (Nat.lt_succ_of_le h)

theorem build_delay_table_getD (max_time dt : ℕ) (h : dt ≤ max_time) :
    (build_delay_table max_time).getD dt 0 = 10 / ((dt : ℝ) + 10) := by
  unfold build_delay_table
  exact getD_range_map _ _ _ (Nat.lt_succ_of_le h)

theorem build_distance_table_length (max_distance : ℕ) :
    (build_distance_table max_distance).length = max_distance + 1 := by
  unfold build_distance_table
  rw [List.length_map, List.length_range]

theorem build_delay_table_length (max_time : ℕ) :
    (build_delay_table max_time).length = max_time + 1 := by
  unfold build_delay_table
  rw [List.length_map, List.length_range]

theorem distance_entry_pos (d : ℕ) : 0 < (2 : ℝ) ^ (-(0.1 : ℝ) * d) :=
  Real.rpow_pos_of_pos (by norm_num) _

theorem distance_entry_le_one (d : ℕ) : (2 : ℝ) ^ (-(0.1 : ℝ) * d) ≤ 1 := by
  apply Real.rpow_le_one_of_one_le_of_nonpos (by norm_num)
  have hd : (0 : ℝ) ≤ (d : ℝ) := Nat.cast_nonneg d
  nlinarith

theorem distance_entry_antitone {d e : ℕ} (h : d ≤ e) :
    (2 : ℝ) ^ (-(0.1 : ℝ) * e) ≤ (2 : ℝ) ^ (-(0.1 : ℝ) * d) := by
  rw [Real.rpow_le_rpow_left_iff (by norm_num : (1 : ℝ) < 2)]
  have : (d : ℝ) ≤ (e : ℝ) := Nat.cast_le.mpr h
  nlinarith

theorem delay_entry_pos (dt : ℕ) : 0 < 10 / ((dt : ℝ) + 10) := by
  have : (0 : ℝ) ≤ (dt : ℝ) := Nat.cast_nonneg dt
  positivity

theorem delay_entry_le_one (dt : ℕ) : 10 / ((dt : ℝ) + 10) ≤ 1 := by
  rw [div_le_one (by positivity)]
  have : (0 : ℝ) ≤ (dt : ℝ) := Nat.cast_nonneg dt
  linarith

theorem delay_entry_antitone {d e : ℕ} (h : d ≤ e) :
    10 / ((e : ℝ) + 10) ≤ 10 / ((d : ℝ) + 10) := by
  have hde : (d : ℝ) ≤ (e : ℝ) := Nat.cast_le.mpr h
  have hd : (0 : ℝ) ≤ (d : ℝ) := Nat.cast_nonneg d
  gcongr

theorem lookup_clamped_saturates (table : List ℝ) (i : ℤ)
    (hne : 1 ≤ table.length) (h : (table.length : ℤ) - 1 ≤ i) :
    lookup_clamped table i = table.getD (table.length - 1) 0 := by
  unfold lookup_clamped
  congr 1
  omega

/-- Claim C5: for every cell and time with nonnegative time and phase, the
built capacity field entry equals the full base bandwidth when
`tau = (phase + t) mod 10` lies in `[3, 6]`, half the base bandwidth when
`tau` is `2` or `7`, and `0` otherwise; consequently every entry is exactly
`0`, half the base bandwidth, or the full base bandwidth. -/
theorem claim_C5_bandwidth_matrix (uav_b : ℤ → ℤ → ℝ) (uav_phi : ℤ → ℤ → ℤ)
    (t x y : ℤ) (ht : 0 ≤ t) (hphi : 0 ≤ uav_phi x y) :
    (build_bandwidth_matrix uav_b uav_phi t x y =
       if 3 ≤ (uav_phi x y + t) % 10 ∧ (uav_phi x y + t) % 10 ≤ 6 then uav_b x y
       else if (uav_phi x y + t) % 10 = 2 ∨ (uav_phi x y + t) % 10 = 7 then uav_b x y / 2
       else 0) ∧
    (build_bandwidth_matrix uav_b uav_phi t x y = 0 ∨
     build_bandwidth_matrix uav_b uav_phi t x y = uav_b x y / 2 ∨
     build_bandwidth_matrix uav_b uav_phi t x y = uav_b x y) := by
  have h0 : 0 ≤ uav_phi x y + t := by omega
  have htm : Int.tmod (uav_phi x y + t) 10 = (uav_phi x y + t) % 10 :=
    Int.tmod_eq_emod h0 (by norm_num)
  constructor
  · unfold build_bandwidth_matrix
    rw [htm]
  · unfold build_bandwidth_matrix
    simp only []
    split_ifs with h1 h2
    · tauto
    · tauto
    · tauto

/-- Witness for claim C5 at a concrete input: base bandwidth 5, phase 3,
time 0, so `tau = 3` and the entry is the full base bandwidth. -/
theorem claim_C5_bandwidth_matrix_witness :
    (build_bandwidth_matrix (fun _ _ => (5 : ℝ)) (fun _ _ => 3) 0 0 0 =
       if 3 ≤ (((fun (_ : ℤ) (_ : ℤ) => (3 : ℤ)) 0 0) + 0) % 10 ∧
            (((fun (_ : ℤ) (_ : ℤ) => (3 : ℤ)) 0 0) + 0) % 10 ≤ 6 then
         (fun (_ : ℤ) (_ : ℤ) => (5 : ℝ)) 0 0
       else if (((fun (_ : ℤ) (_ : ℤ) => (3 : ℤ)) 0 0) + 0) % 10 = 2 ∨
               (((fun (_ : ℤ) (_ : ℤ) => (3 : ℤ)) 0 0) + 0) % 10 = 7 then
         (fun (_ : ℤ) (_ : ℤ) => (5 : ℝ)) 0 0 / 2
       else 0) ∧
    (build_bandwidth_matrix (fun _ _ => (5 : ℝ)) (fun _ _ => 3) 0 0 0 = 0 ∨
     build_bandwidth_matrix (fun _ _ => (5 : ℝ)) (fun _ _ => 3) 0 0 0 =
       (fun (_ : ℤ) (_ : ℤ) => (5 : ℝ)) 0 0 / 2 ∨
     build_bandwidth_matrix (fun _ _ => (5 : ℝ)) (fun _ _ => 3) 0 0 0 =
       (fun (_ : ℤ) (_ : ℤ) => (5 : ℝ)) 0 0) :=
  claim_C5_bandwidth_matrix (fun _ _ => (5 : ℝ)) (fun _ _ => 3) 0 0 0
    (by norm_num) (by norm_num)

/-- Claim C6: the distance-decay table holds `2 ^ (-0.1 * d)` for every
`d ≤ max_distance` and the delay-decay table holds `10 / (dt + 10)` for
every `dt ≤ max_time`; both are monotonically non-increasing in the index
and every entry lies in `(0, 1]`; and a lookup with an index at or beyond
the maximum built index returns the entry at the maximum built index. -/
theorem claim_C6_decay_tables (max_distance max_time : ℕ) :
    (∀ d : ℕ, d ≤ max_distance →
       (build_distance_table max_distance).getD d 0 = (2 : ℝ) ^ (-(0.1 : ℝ) * d)) ∧
    (∀ dt : ℕ, dt ≤ max_time →
       (build_delay_table max_time).getD dt 0 = 10 / ((dt : ℝ) + 10)) ∧
    (∀ d e : ℕ, d ≤ e → e ≤ max_distance →
       (build_distance_table max_distance).getD e 0 ≤
         (build_distance_table max_distance).getD d 0) ∧
    (∀ d e : ℕ, d ≤ e → e ≤ max_time →
       (build_delay_table max_time).getD e 0 ≤ (build_delay_table max_time).getD d 0) ∧
    (∀ d : ℕ, d ≤ max_distance →
       0 < (build_distance_table max_distance).getD d 0 ∧
         (build_distance_table max_distance).getD d 0 ≤ 1) ∧
    (∀ dt : ℕ, dt ≤ max_time →
       0 < (build_delay_table max_time).getD dt 0 ∧
         (build_delay_table max_time).getD dt 0 ≤ 1) ∧
    (∀ i : ℤ, (max_distance : ℤ) ≤ i →
       lookup_clamped (build_distance_table max_distance) i =
         (build_distance_table max_distance).getD max_distance 0) ∧
    (∀ i : ℤ, (max_time : ℤ) ≤ i →
       lookup_clamped (build_delay_table max_time) i =
         (build_delay_table max_time).getD max_time 0) := by
  refine ⟨build_distance_table_getD max_distance, build_delay_table_getD max_time,
    ?_, ?_, ?_, ?_, ?_, ?_⟩
  · intro d e hde he
    rw [build_distance_table_getD _ _ (le_trans hde he), build_distance_table_getD _ _ he]
    exact distance_entry_antitone hde
  · intro d e hde he
    rw [build_delay_table_getD _ _ (le_trans hde he), build_delay_table_getD _ _ he]
    exact delay_entry_antitone hde
  · intro d hd
    rw [build_distance_table_getD _ _ hd]
    exact ⟨distance_entry_pos d, distance_entry_le_one d⟩
  · intro dt hdt
    rw [build_delay_table_getD _ _ hdt]
    exact ⟨delay_entry_pos dt, delay_entry_le_one dt⟩
  · intro i hi
    have h := lookup_clamped_saturates (build_distance_table max_distance) i
      (by rw [build_distance_table_length]; omega)
      (by rw [build_distance_table_length]; push_cast; omega)
    rw [h, build_distance_table_length]
    norm_num
  · intro i hi
    have h := lookup_clamped_saturates (build_delay_table max_time) i
      (by rw [build_delay_table_length]; omega)
      (by rw [build_delay_table_length]; push_cast; omega)
    rw [h, build_delay_table_length]
    norm_num

/-- Witness for claim C6 at concrete inputs: table bounds 3 and 4,
monotonicity between indices 1 and 2, positivity at index 2, and the
saturating lookup at index 9 of the delay table. -/
theorem claim_C6_decay_tables_witness :
    (build_distance_table 3).getD 2 0 ≤ (build_distance_table 3).getD 1 0 ∧
    0 < (build_delay_table 4).getD 2 0 ∧
    lookup_clamped (build_delay_table 4) 9 = (build_delay_table 4).getD 4 0 :=
  ⟨(claim_C6_decay_tables 3 4).2.2.1 1 2 (by norm_num) (by norm_num),
   ((claim_C6_decay_tables 3 4).2.2.2.2.2.1 2 (by norm_num)).1,
   (claim_C6_decay_tables 3 4).2.2.2.2.2.2.2 9 (by norm_num)⟩

@[simp] theorem delivered_at_nil (p : ℤ × ℤ × ℤ) : delivered_at [] p = 0 := by
  simp [delivered_at]

@[simp] theorem delivered_at_cons (it : ScheduleItem) (items : List ScheduleItem)
    (p : ℤ × ℤ × ℤ) :
    delivered_at (it :: items) p =
      (if (it.t, it.x, it.y) = p then it.z else 0) + delivered_at items p := by
  simp [delivered_at]

@[simp] theorem delivered_at_append (a b : List ScheduleItem) (p : ℤ × ℤ × ℤ) :
    delivered_at (a ++ b) p = delivered_at a p + delivered_at b p := by
  simp [delivered_at]

@[simp] theorem total_z_nil : total_z [] = 0 := by simp [total_z]

@[simp] theorem total_z_cons (it : ScheduleItem) (items : List ScheduleItem) :
    total_z (it :: items) = it.z + total_z items := by simp [total_z]

@[simp] theorem total_z_append (a b : List ScheduleItem) :
    total_z (a ++ b) = total_z a + total_z b := by simp [total_z]

@[simp] theorem update_cap_apply (rem : ℤ × ℤ × ℤ → ℝ) (p q : ℤ × ℤ × ℤ) (v : ℝ) :
    update_cap rem p v q = if q = p then v else rem q := rfl

theorem alloc_slots_conserve (ux uy : ℤ) (slots : List TimeSlotInfo) (need : ℝ)
    (rem : ℤ × ℤ × ℤ → ℝ) (p : ℤ × ℤ × ℤ) :
    (alloc_slots ux uy slots need rem).2.2 p =
      rem p - delivered_at (alloc_slots ux uy slots need rem).1 p := by
  induction slots generalizing need rem with
  | nil => simp [alloc_slots]
  | cons slot rest ih =>
    simp only [alloc_slots]
    split_ifs with h1 h2
    · simp
    · simp only [delivered_at_cons]
      rw [ih]
      simp only [update_cap_apply]
      by_cases hp : (slot.t, ux, uy) = p
      · rw [if_pos hp, if_pos hp.symm, ← hp]
        ring
      · rw [if_neg hp, if_neg (fun h => hp h.symm)]
        ring
    · exact ih need rem

theorem alloc_slots_nonneg (ux uy : ℤ) (slots : List TimeSlotInfo) (need : ℝ)
    (rem : ℤ × ℤ × ℤ → ℝ) (p : ℤ × ℤ × ℤ) (h : 0 ≤ rem p) :
    0 ≤ (alloc_slots ux uy slots need rem).2.2 p := by
  induction slots generalizing need rem with
  | nil => simpa [alloc_slots]
  | cons slot rest ih =>
    simp only [alloc_slots]
    split_ifs with h1 h2
    · exact h
    · apply ih
      simp only [update_cap_apply]
      split_ifs with hp
      · have hmin : min (rem (slot.t, ux, uy)) need ≤ rem (slot.t, ux, uy) :=
          min_le_left _ _
        linarith
      · exact h
    · exact ih need rem h

theorem alloc_slots_need_eq (ux uy : ℤ) (slots : List TimeSlotInfo) (need : ℝ)
    (rem : ℤ × ℤ × ℤ → ℝ) :
    (alloc_slots ux uy slots need rem).2.1 +
      total_z (alloc_slots ux uy slots need rem).1 = need := by
  induction slots generalizing need rem with
  | nil => simp [alloc_slots]
  | cons slot rest ih =>
    simp only [alloc_slots]
    split_ifs with h1 h2
    · simp
    · simp only [total_z_cons]
      have := ih (need - min (rem (slot.t, ux, uy)) need)
        (update_cap rem (slot.t, ux, uy)
          (rem (slot.t, ux, uy) - min (rem (slot.t, ux, uy)) need))
      linarith
    · exact ih need rem

theorem alloc_slots_need_nonneg (ux uy : ℤ) (slots : List TimeSlotInfo) (need : ℝ)
    (rem : ℤ × ℤ × ℤ → ℝ) (h : 0 ≤ need) :
    0 ≤ (alloc_slots ux uy slots need rem).2.1 := by
  induction slots generalizing need rem with
  | nil => simpa [alloc_slots]
  | cons slot rest ih =>
    simp only [alloc_slots]
    split_ifs with h1 h2
    · exact h
    · apply ih
      have : min (rem (slot.t, ux, uy)) need ≤ need := min_le_right _ _
      linarith
    · exact ih need rem h

theorem decode_phase_conserve (cands : List CandidateInfo)
    (slots : List (List TimeSlotInfo)) (ci : ℕ) (need : ℝ)
    (rem : ℤ × ℤ × ℤ → ℝ) (p : ℤ × ℤ × ℤ) :
    (decode_phase cands slots ci need rem).2.2 p =
      rem p - delivered_at (decode_phase cands slots ci need rem).1 p :=
  alloc_slots_conserve _ _ _ _ _ _

theorem decode_phase_nonneg (cands : List CandidateInfo)
    (slots : List (List TimeSlotInfo)) (ci : ℕ) (need : ℝ)
    (rem : ℤ × ℤ × ℤ → ℝ) (p : ℤ × ℤ × ℤ) (h : 0 ≤ rem p) :
    0 ≤ (decode_phase cands slots ci need rem).2.2 p :=
  alloc_slots_nonneg _ _ _ _ _ _ h

theorem decode_phase_need_eq (cands : List CandidateInfo)
    (slots : List (List TimeSlotInfo)) (ci : ℕ) (need : ℝ)
    (rem : ℤ × ℤ × ℤ → ℝ) :
    (decode_phase cands slots ci need rem).2.1 +
      total_z (decode_phase cands slots ci need rem).1 = need :=
  alloc_slots_need_eq _ _ _ _ _

theorem decode_phase_need_nonneg (cands : List CandidateInfo)
    (slots : List (List TimeSlotInfo)) (ci : ℕ) (need : ℝ)
    (rem : ℤ × ℤ × ℤ → ℝ) (h : 0 ≤ need) :
    0 ≤ (decode_phase cands slots ci need rem).2.1 :=
  alloc_slots_need_nonneg _ _ _ _ _ h

theorem decode_flow_conserve (cands : List CandidateInfo)
    (slots : List (List TimeSlotInfo)) (fl : Flow) (sol_idx : ℕ)
    (rem : ℤ × ℤ × ℤ → ℝ) (p : ℤ × ℤ × ℤ) :
    (decode_flow cands slots fl sol_idx rem).2 p =
      rem p - delivered_at (decode_flow cands slots fl sol_idx rem).1 p := by
  simp only [decode_flow]
  split_ifs with h
  · simp only [delivered_at_append]
    rw [decode_phase_conserve, decode_phase_conserve]
    ring
  · exact decode_phase_conserve _ _ _ _ _ _

theorem decode_flow_nonneg (cands : List CandidateInfo)
    (slots : List (List TimeSlotInfo)) (fl : Flow) (sol_idx : ℕ)
    (rem : ℤ × ℤ × ℤ → ℝ) (p : ℤ × ℤ × ℤ) (h : 0 ≤ rem p) :
    0 ≤ (decode_flow cands slots fl sol_idx rem).2 p := by
  simp only [decode_flow]
  split_ifs with hc
  · exact decode_phase_nonneg _ _ _ _ _ _ (decode_phase_nonneg _ _ _ _ _ _ h)
  · exact decode_phase_nonneg _ _ _ _ _ _ h

theorem decode_flow_total_le (cands : List CandidateInfo)
    (slots : List (List TimeSlotInfo)) (fl : Flow) (sol_idx : ℕ)
    (rem : ℤ × ℤ × ℤ → ℝ) (h : 0 ≤ fl.s) :
    total_z (decode_flow cands slots fl sol_idx rem).1 ≤ fl.s := by
  simp only [decode_flow]
  split_ifs with hc
  · simp only [total_z_append]
    have e1 := decode_phase_need_eq cands slots (resolve_idx cands sol_idx) fl.s rem
    have n1 := decode_phase_need_nonneg cands slots (resolve_idx cands sol_idx) fl.s rem h
    have e2 := decode_phase_need_eq cands slots
      ((resolve_idx cands sol_idx + 1) % cands.length)
      (decode_phase cands slots (resolve_idx cands sol_idx) fl.s rem).2.1
      (decode_phase cands slots (resolve_idx cands sol_idx) fl.s rem).2.2
    have n2 := decode_phase_need_nonneg cands slots
      ((resolve_idx cands sol_idx + 1) % cands.length)
      (decode_phase cands slots (resolve_idx cands sol_idx) fl.s rem).2.1
      (decode_phase cands slots (resolve_idx cands sol_idx) fl.s rem).2.2 n1
    linarith
  · have e1 := decode_phase_need_eq cands slots (resolve_idx cands sol_idx) fl.s rem
    have n1 := decode_phase_need_nonneg cands slots (resolve_idx cands sol_idx) fl.s rem h
    linarith

@[simp] theorem delivered_all_nil (p : ℤ × ℤ × ℤ) : delivered_all [] p = 0 := by
  simp [delivered_all]

@[simp] theorem delivered_all_cons (s : List ScheduleItem)
    (rest : List (List ScheduleItem)) (p : ℤ × ℤ × ℤ) :
    delivered_all (s :: rest) p = delivered_at s p + delivered_all rest p := by
  simp [delivered_all]

theorem delivered_all_replicate (n : ℕ) (p : ℤ × ℤ × ℤ) :
    delivered_all (List.replicate n []) p = 0 := by
  induction n with
  | zero => simp
  | succ n ih => simp [List.replicate_succ, ih]

theorem getD_set_of_ne {α : Type} (l : List α) (i j : ℕ) (a d : α) (h : i ≠ j) :
    (l.set i a).getD j d = l.getD j d := by
  rw [List.getD_eq_getElem?_getD, List.getD_eq_getElem?_getD, List.getElem?_set_ne h]

theorem getD_set_self {α : Type} (l : List α) (i : ℕ) (a d : α) (h : i < l.length) :
    (l.set i a).getD i d = a := by
  rw [List.getD_eq_getElem?_getD, List.getElem?_set_self h]
  rfl

theorem delivered_all_set (schedules : List (List ScheduleItem)) (idx : ℕ)
    (items : List ScheduleItem) (p : ℤ × ℤ × ℤ) (h : idx < schedules.length) :
    delivered_all (schedules.set idx (schedules.getD idx [] ++ items)) p =
      delivered_all schedules p + delivered_at items p := by
  induction schedules generalizing idx with
  | nil => simp at h
  | cons s rest ih =>
    cases idx with
    | zero =>
      simp only [List.set_cons_zero, List.getD_cons_zero, delivered_all_cons,
        delivered_at_append]
      ring
    | succ n =>
      simp only [List.set_cons_succ, List.getD_cons_succ, delivered_all_cons]
      rw [ih n (by simpa using h)]
      ring

section DecoderLoop

variable (cands : List (List CandidateInfo)) (slots : List (List (List TimeSlotInfo)))

variable (flows : List Flow) (solution : List ℕ)

theorem decode_step_length
    (st : List (List ScheduleItem) × (ℤ × ℤ × ℤ → ℝ)) (i : ℕ) :
    (decode_step cands slots flows solution st i).1.length = st.1.length := by
  simp [decode_step]

theorem foldl_decode_length (ord : List ℕ)
    (st : List (List ScheduleItem) × (ℤ × ℤ × ℤ → ℝ)) :
    (ord.foldl (decode_step cands slots flows solution) st).1.length = st.1.length := by
  induction ord generalizing st with
  | nil => rfl
  | cons i rest ih =>
    rw [List.foldl_cons, ih, decode_step_length]

theorem foldl_decode_nonneg (ord : List ℕ)
    (st : List (List ScheduleItem) × (ℤ × ℤ × ℤ → ℝ))
    (h : ∀ p, 0 ≤ st.2 p) (p : ℤ × ℤ × ℤ) :
    0 ≤ (ord.foldl (decode_step cands slots flows solution) st).2 p := by
  induction ord generalizing st with
  | nil => exact h p
  | cons i rest ih =>
    rw [List.foldl_cons]
    apply ih
    intro q
    exact decode_flow_nonneg _ _ _ _ _ _ (h q)

theorem foldl_decode_conserve (ord : List ℕ)
    (st : List (List ScheduleItem) × (ℤ × ℤ × ℤ → ℝ)) (p : ℤ × ℤ × ℤ)
    (hlen : ∀ i ∈ ord, i < st.1.length) :
    (ord.foldl (decode_step cands slots flows solution) st).2 p +
        delivered_all (ord.foldl (decode_step cands slots flows solution) st).1 p =
      st.2 p + delivered_all st.1 p := by
  induction ord generalizing st with
  | nil => rfl
  | cons i rest ih =>
    rw [List.foldl_cons]
    rw [ih _ (fun j hj => by
      rw [decode_step_length]
      exact hlen j (List.mem_cons_of_mem _ hj))]
    simp only [decode_step]
    rw [delivered_all_set _ _ _ _ (hlen i (List.mem_cons_self _ _))]
    rw [decode_flow_conserve]
    ring

theorem foldl_decode_untouched (ord : List ℕ)
    (st : List (List ScheduleItem) × (ℤ × ℤ × ℤ → ℝ)) (j : ℕ) (h : j ∉ ord) :
    (ord.foldl (decode_step cands slots flows solution) st).1.getD j [] =
      st.1.getD j [] := by
  induction ord generalizing st with
  | nil => rfl
  | cons i rest ih =>
    rw [List.foldl_cons]
    rw [ih _ (fun hj => h (List.mem_cons_of_mem _ hj))]
    simp only [decode_step]
    exact getD_set_of_ne _ _ _ _ _ (fun hij => h (hij ▸ List.mem_cons_self _ _))

theorem foldl_flow_bound (j : ℕ) :
    ∀ (ord : List ℕ) (st : List (List ScheduleItem) × (ℤ × ℤ × ℤ → ℝ)),
      ord.Nodup → st.1.getD j [] = [] → 0 ≤ (flows.getD j default).s →
      total_z ((ord.foldl (decode_step cands slots flows solution) st).1.getD j []) ≤
        (flows.getD j default).s := by
  intro ord
  induction ord with
  | nil =>
    intro st _ hj hs
    simp only [List.foldl_nil, hj, total_z_nil]
    exact hs
  | cons i rest ih =>
    intro st hnd hj hs
    by_cases hij : i = j
    · subst hij
      rw [List.foldl_cons, foldl_decode_untouched _ _ _ _ _ _ i
        (List.Nodup.not_mem hnd)]
      simp only [decode_step]
      by_cases hlt : i < st.1.length
      · rw [getD_set_self _ _ _ _ hlt, hj, List.nil_append]
        exact decode_flow_total_le _ _ _ _ _ hs
      · rw [List.getD_eq_getElem?_getD, List.getElem?_set]
        simp only [if_neg hlt, if_pos rfl, Option.getD_none, total_z_nil]
        exact hs
    · rw [List.foldl_cons]
      apply ih _ (List.Nodup.of_cons hnd) _ hs
      simp only [decode_step]
      rw [getD_set_of_ne _ _ _ _ _ hij]
      exact hj

end DecoderLoop

open Classical in
theorem order_flows_perm (flows : List Flow) :
    (order_flows flows).Perm (List.range flows.length) := by
  unfold order_flows
  exact List.mergeSort_perm _ _

theorem order_flows_mem (flows : List Flow) (i : ℕ) (h : i ∈ order_flows flows) :
    i < flows.length :=
  List.mem_range.mp ((order_flows_perm flows).mem_iff.mp h)

theorem order_flows_nodup (flows : List Flow) : (order_flows flows).Nodup :=
  (order_flows_perm flows).nodup_iff.mpr (List.nodup_range _)

/-- The shared-capacity safety invariant of one decode pass, for an arbitrary
nonnegative initial capacity field. -/
theorem greedy_allocate_capacity_bound (dist_table delay_table : List ℝ)
    (cands : List (List CandidateInfo)) (slots : List (List (List TimeSlotInfo)))
    (cap : ℤ × ℤ × ℤ → ℝ) (flows : List Flow) (solution : List ℕ)
    (hcap : ∀ p, 0 ≤ cap p) (p : ℤ × ℤ × ℤ) :
    delivered_all
        (greedy_allocate dist_table delay_table cands slots cap flows solution).1 p ≤
      cap p := by
  simp only [greedy_allocate]
  have hlen : ∀ i ∈ order_flows flows,
      i < (List.replicate flows.length ([] : List ScheduleItem)).length := by
    intro i hi
    rw [List.length_replicate]
    exact order_flows_mem flows i hi
  have hcons := foldl_decode_conserve cands slots flows solution (order_flows flows)
    (List.replicate flows.length [], cap) p hlen
  have hnn := foldl_decode_nonneg cands slots flows solution (order_flows flows)
    (List.replicate flows.length [], cap) (fun q => hcap q) p
  rw [delivered_all_replicate] at hcons
  linarith

/-- Claim C2: within a single invocation of the greedy decoder run on the
built capacity field, for every `(t, x, y)` the summed delivered amounts of
all schedule items of all flows at `(t, x, y)` never exceed the capacity
field value the working table was initialized from. -/
theorem claim_C2_shared_capacity (dist_table delay_table : List ℝ)
    (cands : List (List CandidateInfo)) (slots : List (List (List TimeSlotInfo)))
    (uav_b : ℤ → ℤ → ℝ) (uav_phi : ℤ → ℤ → ℤ) (flows : List Flow)
    (solution : List ℕ) (hb : ∀ x y, 0 ≤ uav_b x y) (t x y : ℤ) :
    delivered_all
        (greedy_allocate dist_table delay_table cands slots
          (fun q => build_bandwidth_matrix uav_b uav_phi q.1 q.2.1 q.2.2)
          flows solution).1 (t, x, y) ≤
      build_bandwidth_matrix uav_b uav_phi t x y := by
  have hcap : ∀ q : ℤ × ℤ × ℤ,
      0 ≤ build_bandwidth_matrix uav_b uav_phi q.1 q.2.1 q.2.2 := by
    intro q
    simp only [build_bandwidth_matrix]
    split_ifs
    · exact hb _ _
    · have := hb q.2.1 q.2.2
      linarith
    · exact le_refl 0
  exact greedy_allocate_capacity_bound dist_table delay_table cands slots _
    flows solution hcap (t, x, y)

/-- Witness for claim C2 at a concrete input: empty flow list, unit base
bandwidth, zero phases, cell-time `(0, 0, 0)`. -/
theorem claim_C2_shared_capacity_witness :
    delivered_all
        (greedy_allocate [] [] [] []
          (fun q => build_bandwidth_matrix (fun _ _ => (1 : ℝ)) (fun _ _ => 0)
            q.1 q.2.1 q.2.2)
          [] []).1 (0, 0, 0) ≤
      build_bandwidth_matrix (fun _ _ => (1 : ℝ)) (fun _ _ => 0) 0 0 0 :=
  claim_C2_shared_capacity [] [] [] [] (fun _ _ => (1 : ℝ)) (fun _ _ => 0) [] []
    (fun _ _ => by norm_num) 0 0 0

theorem sum_single_hit (P : List (ℤ × ℤ × ℤ)) (a : ℤ × ℤ × ℤ) (z : ℝ)
    (hP : P.Nodup) (ha : a ∈ P) :
    (P.map (fun p => if a = p then z else 0)).sum = z := by
  induction P with
  | nil => cases ha
  | cons q rest ih =>
    rcases List.mem_cons.mp ha with h | h
    · subst h
      simp only [List.map_cons, List.sum_cons, if_pos rfl]
      have hz : (rest.map (fun p => if a = p then z else 0)).sum = 0 := by
        apply List.sum_eq_zero
        intro x hx
        rcases List.mem_map.mp hx with ⟨p, hp, rfl⟩
        rw [if_neg]
        intro he
        exact (List.nodup_cons.mp hP).1 (by rwa [← he] at hp)
      rw [hz]
      simp
    · have hne : a ≠ q := by
        intro he
        exact (List.nodup_cons.mp hP).1 (by rwa [he] at h)
      simp only [List.map_cons, List.sum_cons, if_neg hne]
      rw [ih (List.Nodup.of_cons hP) h]
      ring

theorem delivered_group (items : List ScheduleItem) (P : List (ℤ × ℤ × ℤ))
    (hP : P.Nodup) (hmem : ∀ it ∈ items, (it.t, it.x, it.y) ∈ P) :
    (P.map (fun p => delivered_at items p)).sum = total_z items := by
  induction items with
  | nil => simp
  | cons it rest ih =>
    simp only [delivered_at_cons, total_z_cons]
    rw [List.sum_map_add, sum_single_hit P _ _ hP (hmem it (List.mem_cons_self _ _)),
      ih (fun x hx => hmem x (List.mem_cons_of_mem _ hx))]

theorem decode_flow_consumed_eq (cands : List CandidateInfo)
    (slots : List (List TimeSlotInfo)) (fl : Flow) (sol_idx : ℕ)
    (rem : ℤ × ℤ × ℤ → ℝ) :
    total_z (decode_flow cands slots fl sol_idx rem).1 =
      consumed_on (decode_flow cands slots fl sol_idx rem).1 rem
        (decode_flow cands slots fl sol_idx rem).2 := by
  unfold consumed_on
  rw [List.map_congr_left (g := fun p =>
      delivered_at (decode_flow cands slots fl sol_idx rem).1 p)
    (fun p _ => by rw [decode_flow_conserve]; ring)]
  exact (delivered_group _ (cells_of (decode_flow cands slots fl sol_idx rem).1)
    (List.nodup_dedup _)
    (fun it hit => List.mem_dedup.mpr (List.mem_map_of_mem _ hit))).symm

theorem getD_replicate_nil (n i : ℕ) :
    (List.replicate n ([] : List ScheduleItem)).getD i [] = [] := by
  induction n generalizing i with
  | zero => rfl
  | succ n ih =>
    cases i with
    | zero => rfl
    | succ j => simp [List.replicate_succ]

/-- Claim C3: for every flow, the total delivered amount over that flow's
schedule items in a decode pass never exceeds the flow's demand `s`, and the
per-flow consumption pass delivers no more than the total capacity
decremented from the shared remaining-capacity table on that flow's
behalf. -/
theorem claim_C3_per_flow_bounds (dist_table delay_table : List ℝ)
    (cands : List (List CandidateInfo)) (slots : List (List (List TimeSlotInfo)))
    (cap : ℤ × ℤ × ℤ → ℝ) (flows : List Flow) (solution : List ℕ)
    (hs : ∀ fl ∈ flows, 0 ≤ fl.s) :
    (∀ i : ℕ,
       total_z ((greedy_allocate dist_table delay_table cands slots cap flows
           solution).1.getD i []) ≤ (flows.getD i default).s) ∧
    (∀ (i : ℕ) (rem : ℤ × ℤ × ℤ → ℝ),
       total_z (decode_flow (cands.getD i []) (slots.getD i [])
           (flows.getD i default) (solution.getD i 0) rem).1 ≤
         consumed_on (decode_flow (cands.getD i []) (slots.getD i [])
             (flows.getD i default) (solution.getD i 0) rem).1 rem
           (decode_flow (cands.getD i []) (slots.getD i [])
             (flows.getD i default) (solution.getD i 0) rem).2) := by
  constructor
  · intro i
    have hsi : 0 ≤ (flows.getD i default).s := by
      by_cases hi : i < flows.length
      · rw [List.getD_eq_getElem _ _ hi]
        exact hs _ (List.getElem_mem hi)
      · rw [List.getD_eq_default _ _ (by omega)]
        exact le_refl 0
    simp only [greedy_allocate]
    by_cases hi : i < flows.length
    · exact foldl_flow_bound cands slots flows solution i (order_flows flows)
        (List.replicate flows.length [], cap) (order_flows_nodup flows)
        (getD_replicate_nil _ _) hsi
    · rw [List.getD_eq_default]
      · simpa using hsi
      · rw [foldl_decode_length, List.length_replicate]
        omega
  · intro i rem
    exact le_of_eq (decode_flow_consumed_eq _ _ _ _ _)

/-- Witness for claim C3 at a concrete input: one flow with demand `2`,
no candidates, empty solution. -/
theorem claim_C3_per_flow_bounds_witness :
    (∀ i : ℕ,
       total_z ((greedy_allocate [] [] [] [] (fun _ => 0)
           [{ f := 0, x := 0, y := 0, tf := 0, s := 2, m1 := 0, n1 := 0,
              m2 := 0, n2 := 0 }] []).1.getD i []) ≤
         (([{ f := 0, x := 0, y := 0, tf := 0, s := 2, m1 := 0, n1 := 0,
              m2 := 0, n2 := 0 }] : List Flow).getD i default).s) ∧
    (∀ (i : ℕ) (rem : ℤ × ℤ × ℤ → ℝ),
       total_z (decode_flow (([] : List (List CandidateInfo)).getD i [])
           (([] : List (List (List TimeSlotInfo))).getD i [])
           (([{ f := 0, x := 0, y := 0, tf := 0, s := 2, m1 := 0, n1 := 0,
                m2 := 0, n2 := 0 }] : List Flow).getD i default)
           (([] : List ℕ).getD i 0) rem).1 ≤
         consumed_on (decode_flow (([] : List (List CandidateInfo)).getD i [])
             (([] : List (List (List TimeSlotInfo))).getD i [])
             (([{ f := 0, x := 0, y := 0, tf := 0, s := 2, m1 := 0, n1 := 0,
                  m2 := 0, n2 := 0 }] : List Flow).getD i default)
             (([] : List ℕ).getD i 0) rem).1 rem
           (decode_flow (([] : List (List CandidateInfo)).getD i [])
             (([] : List (List (List TimeSlotInfo))).getD i [])
             (([{ f := 0, x := 0, y := 0, tf := 0, s := 2, m1 := 0, n1 := 0,
                  m2 := 0, n2 := 0 }] : List Flow).getD i default)
             (([] : List ℕ).getD i 0) rem).2) :=
  claim_C3_per_flow_bounds [] [] [] [] (fun _ => 0)
    [{ f := 0, x := 0, y := 0, tf := 0, s := 2, m1 := 0, n1 := 0,
       m2 := 0, n2 := 0 }] []
    (by intro fl hfl
        rcases List.mem_singleton.mp hfl with rfl
        norm_num)

/-- Claim C4: the greedy decoder is a pure function of the solution vector
and the static tables: two invocations with identical solution, flows,
capacity field, candidate lists and slot lists produce identical per-flow
schedules and an identical aggregate score. -/
theorem claim_C4_decoder_deterministic
    (dist1 dist2 delay1 delay2 : List ℝ)
    (cands1 cands2 : List (List CandidateInfo))
    (slots1 slots2 : List (List (List TimeSlotInfo)))
    (cap1 cap2 : ℤ × ℤ × ℤ → ℝ) (flows1 flows2 : List Flow)
    (sol1 sol2 : List ℕ)
    (hdist : dist1 = dist2) (hdelay : delay1 = delay2) (hcands : cands1 = cands2)
    (hslots : slots1 = slots2) (hcap : cap1 = cap2) (hflows : flows1 = flows2)
    (hsol : sol1 = sol2) :
    greedy_allocate dist1 delay1 cands1 slots1 cap1 flows1 sol1 =
      greedy_allocate dist2 delay2 cands2 slots2 cap2 flows2 sol2 := by
  subst hdist hdelay hcands hslots hcap hflows hsol
  rfl

/-- Witness for claim C4: two invocations on a concrete (empty) instance. -/
theorem claim_C4_decoder_deterministic_witness :
    greedy_allocate [] [] [] [] (fun _ => 0) [] [] =
      greedy_allocate [] [] [] [] (fun _ => 0) [] [] :=
  claim_C4_decoder_deterministic [] [] [] [] [] [] [] [] (fun _ => 0) (fun _ => 0)
    [] [] [] [] rfl rfl rfl rfl rfl rfl rfl

theorem decode_flow_congr_idx (cands : List CandidateInfo)
    (slots : List (List TimeSlotInfo)) (fl : Flow) (a b : ℕ)
    (rem : ℤ × ℤ × ℤ → ℝ) (h : resolve_idx cands a = resolve_idx cands b) :
    decode_flow cands slots fl a rem = decode_flow cands slots fl b rem := by
  unfold decode_flow
  rw [h]

theorem decode_step_congr (cands : List (List CandidateInfo))
    (slots : List (List (List TimeSlotInfo))) (flows : List Flow)
    (sol1 sol2 : List ℕ)
    (h : ∀ k, resolve_idx (cands.getD k []) (sol1.getD k 0) =
       resolve_idx (cands.getD k []) (sol2.getD k 0)) :
    decode_step cands slots flows sol1 = decode_step cands slots flows sol2 := by
  funext st idx
  unfold decode_step
  rw [decode_flow_congr_idx _ _ _ _ _ _ (h idx)]

theorem greedy_allocate_congr_sol (dist_table delay_table : List ℝ)
    (cands : List (List CandidateInfo)) (slots : List (List (List TimeSlotInfo)))
    (cap : ℤ × ℤ × ℤ → ℝ) (flows : List Flow) (sol1 sol2 : List ℕ)
    (h : ∀ k, resolve_idx (cands.getD k []) (sol1.getD k 0) =
       resolve_idx (cands.getD k []) (sol2.getD k 0)) :
    greedy_allocate dist_table delay_table cands slots cap flows sol1 =
      greedy_allocate dist_table delay_table cands slots cap flows sol2 := by
  unfold greedy_allocate
  rw [decode_step_congr cands slots flows sol1 sol2 h]

/-- Claim C9: when some flow's candidate index in the solution vector is out
of range for that flow's candidate list, the decoder remaps it to the first
candidate and produces exactly the schedules and score it would produce with
index `0` there. -/
theorem claim_C9_out_of_range_index (dist_table delay_table : List ℝ)
    (cands : List (List CandidateInfo)) (slots : List (List (List TimeSlotInfo)))
    (cap : ℤ × ℤ × ℤ → ℝ) (flows : List Flow) (solution : List ℕ) (i : ℕ)
    (hne : 0 < (cands.getD i []).length)
    (hout : (cands.getD i []).length ≤ solution.getD i 0) :
    greedy_allocate dist_table delay_table cands slots cap flows solution =
      greedy_allocate dist_table delay_table cands slots cap flows
        (solution.set i 0) := by
  apply greedy_allocate_congr_sol
  intro k
  by_cases hk : k = i
  · subst hk
    by_cases hlt : k < solution.length
    · rw [getD_set_self _ _ _ _ hlt]
      unfold resolve_idx
      rw [if_pos hout]
      split_ifs <;> rfl
    · exfalso
      have h0 : solution.getD k 0 = 0 := List.getD_eq_default _ _ (by omega)
      omega
  · rw [getD_set_of_ne _ _ _ _ _ (fun he => hk he.symm)]

/-- Witness for claim C9: one flow slot with a single candidate and the
out-of-range index `3`, remapped to `0`. -/
theorem claim_C9_out_of_range_index_witness :
    greedy_allocate [] [] [[⟨0, 0, 0, 0, 0, [], 0⟩]] [] (fun _ => 0) [] [3] =
      greedy_allocate [] [] [[⟨0, 0, 0, 0, 0, [], 0⟩]] [] (fun _ => 0) []
        ([3].set 0 0) :=
  claim_C9_out_of_range_index [] [] [[⟨0, 0, 0, 0, 0, [], 0⟩]] [] (fun _ => 0)
    [] [3] 0 (by simp) (by simp)

theorem lookup_delay_bounds (tMax : ℕ) (d : ℤ) :
    0 < lookup_clamped (build_delay_table tMax) d ∧
      lookup_clamped (build_delay_table tMax) d ≤ 1 := by
  unfold lookup_clamped
  rw [build_delay_table_length]
  have hle : (min d (((tMax + 1 : ℕ) : ℤ) - 1)).toNat ≤ tMax := by omega
  rw [build_delay_table_getD _ _ hle]
  exact ⟨delay_entry_pos _, delay_entry_le_one _⟩

theorem lookup_distance_bounds (dMax : ℕ) (d : ℤ) :
    0 < lookup_clamped (build_distance_table dMax) d ∧
      lookup_clamped (build_distance_table dMax) d ≤ 1 := by
  unfold lookup_clamped
  rw [build_distance_table_length]
  have hle : (min d (((dMax + 1 : ℕ) : ℤ) - 1)).toNat ≤ dMax := by omega
  rw [build_distance_table_getD _ _ hle]
  exact ⟨distance_entry_pos _, distance_entry_le_one _⟩

theorem sum_map_div_z (schedule : List ScheduleItem) (c : ℝ) :
    (schedule.map (fun it => it.z / c)).sum = (schedule.map ScheduleItem.z).sum / c := by
  simp only [div_eq_mul_inv]
  rw [List.sum_map_mul_right]

theorem score_formula_bounds (u ds dm ld : ℝ) (h1 : 0 ≤ u) (h2 : u ≤ 1)
    (h3 : 0 ≤ ds) (h4 : ds ≤ 1) (h5 : 0 ≤ dm) (h6 : dm ≤ 1)
    (h7 : 0 ≤ ld) (h8 : ld ≤ 1) :
    0 ≤ 100 * (0.4 * u + 0.2 * ds + 0.3 * dm + 0.1 * ld) ∧
      100 * (0.4 * u + 0.2 * ds + 0.3 * dm + 0.1 * ld) ≤ 100 := by
  constructor <;> nlinarith

/-- Claim C10: for every flow and every schedule whose items all start no
earlier than the flow's start time, have nonnegative delivered amounts, and
deliver at most the flow's demand in total, the per-flow score lies in
`[0, 100]`; and for every flow with demand at most `1e-9` the score is
exactly `0` regardless of the schedule (the second conjunct quantifies over
an arbitrary flow and arbitrary schedule, independent of the hypotheses of
the first). -/
theorem claim_C10_score_range (dMax tMax : ℕ) (flow : Flow)
    (schedule : List ScheduleItem)
    (hitems : ∀ it ∈ schedule, flow.tf ≤ it.t ∧ 0 ≤ it.z)
    (hsum : total_z schedule ≤ flow.s) :
    (0 ≤ compute_flow_score_fast (build_distance_table dMax)
        (build_delay_table tMax) flow schedule ∧
     compute_flow_score_fast (build_distance_table dMax)
        (build_delay_table tMax) flow schedule ≤ 100) ∧
    (∀ (fl2 : Flow) (sched2 : List ScheduleItem), fl2.s ≤ 1e-9 →
      compute_flow_score_fast (build_distance_table dMax)
        (build_delay_table tMax) fl2 sched2 = 0) := by
  refine ⟨?_, fun fl2 sched2 h9 => by simp only [compute_flow_score_fast, if_pos h9]⟩
  by_cases hs9 : flow.s ≤ 1e-9
  · simp only [compute_flow_score_fast, if_pos hs9]
    norm_num
  · have hspos : (0 : ℝ) < flow.s := by
      have : (0 : ℝ) < 1e-9 := by norm_num
      linarith [not_le.mp hs9]
    have hT0 : 0 ≤ (List.map ScheduleItem.z schedule).sum := by
      apply List.sum_nonneg
      intro x hx
      rcases List.mem_map.mp hx with ⟨it, hit, rfl⟩
      exact (hitems it hit).2
    have hTs : (List.map ScheduleItem.z schedule).sum ≤ flow.s := hsum
    have hu0 : 0 ≤ min ((List.map ScheduleItem.z schedule).sum / flow.s) 1 :=
      le_min (div_nonneg hT0 hspos.le) zero_le_one
    have hu1 : min ((List.map ScheduleItem.z schedule).sum / flow.s) 1 ≤ 1 :=
      min_le_right _ _
    have hds0 : 0 ≤ (List.map (fun item =>
        lookup_clamped (build_delay_table tMax) (item.t - flow.tf) *
          (item.z / flow.s)) schedule).sum := by
      apply List.sum_nonneg
      intro x hx
      rcases List.mem_map.mp hx with ⟨it, hit, rfl⟩
      exact mul_nonneg (lookup_delay_bounds tMax _).1.le
        (div_nonneg (hitems it hit).2 hspos.le)
    have hds1 : (List.map (fun item =>
        lookup_clamped (build_delay_table tMax) (item.t - flow.tf) *
          (item.z / flow.s)) schedule).sum ≤ 1 := by
      calc (List.map (fun item =>
              lookup_clamped (build_delay_table tMax) (item.t - flow.tf) *
                (item.z / flow.s)) schedule).sum
          ≤ (List.map (fun item => item.z / flow.s) schedule).sum := by
            apply List.sum_le_sum
            intro it hit
            exact mul_le_of_le_one_left (div_nonneg (hitems it hit).2 hspos.le)
              (lookup_delay_bounds tMax _).2
        _ = (List.map ScheduleItem.z schedule).sum / flow.s := sum_map_div_z _ _
        _ ≤ 1 := (div_le_one hspos).mpr hTs
    have hdm0 : 0 ≤ (List.map (fun item => item.z / flow.s *
        lookup_clamped (build_distance_table dMax)
          (|flow.x - item.x| + |flow.y - item.y|)) schedule).sum := by
      apply List.sum_nonneg
      intro x hx
      rcases List.mem_map.mp hx with ⟨it, hit, rfl⟩
      exact mul_nonneg (div_nonneg (hitems it hit).2 hspos.le)
        (lookup_distance_bounds dMax _).1.le
    have hdm1 : (List.map (fun item => item.z / flow.s *
        lookup_clamped (build_distance_table dMax)
          (|flow.x - item.x| + |flow.y - item.y|)) schedule).sum ≤ 1 := by
      calc (List.map (fun item => item.z / flow.s *
              lookup_clamped (build_distance_table dMax)
                (|flow.x - item.x| + |flow.y - item.y|)) schedule).sum
          ≤ (List.map (fun item => item.z / flow.s) schedule).sum := by
            apply List.sum_le_sum
            intro it hit
            exact mul_le_of_le_one_right (div_nonneg (hitems it hit).2 hspos.le)
              (lookup_distance_bounds dMax _).2
        _ = (List.map ScheduleItem.z schedule).sum / flow.s := sum_map_div_z _ _
        _ ≤ 1 := (div_le_one hspos).mpr hTs
    have hk1 : 1 ≤ (if (List.map (fun item => (item.x, item.y)) schedule).dedup.isEmpty
        then 1 else (List.map (fun item => (item.x, item.y)) schedule).dedup.length) := by
      split_ifs with he
      · exact le_refl 1
      · have hne : (List.map (fun item => (item.x, item.y)) schedule).dedup ≠ [] := by
          intro hnil
          rw [List.isEmpty_iff] at he
          exact he hnil
        have := List.length_pos.mpr hne
        omega
    have hkc : (1 : ℝ) ≤
        ((if (List.map (fun item => (item.x, item.y)) schedule).dedup.isEmpty
          then 1 else (List.map (fun item => (item.x, item.y)) schedule).dedup.length : ℕ) : ℝ) :=
      Nat.one_le_cast.mpr hk1
    have hld0 : 0 ≤ 1 /
        ((if (List.map (fun item => (item.x, item.y)) schedule).dedup.isEmpty
          then 1 else (List.map (fun item => (item.x, item.y)) schedule).dedup.length : ℕ) : ℝ) := by
      apply div_nonneg zero_le_one
      linarith
    have hld1 : 1 /
        ((if (List.map (fun item => (item.x, item.y)) schedule).dedup.isEmpty
          then 1 else (List.map (fun item => (item.x, item.y)) schedule).dedup.length : ℕ) : ℝ) ≤ 1 := by
      rw [div_le_one (by linarith)]
      exact hkc
    simp only [compute_flow_score_fast, if_neg hs9]
    exact score_formula_bounds _ _ _ _ hu0 hu1 hds0 hds1 hdm0 hdm1 hld0 hld1

/-- Witness for claim C10 at concrete inputs: one schedule item delivering
`1` of demand `1` at the flow's origin at its start time for the bounds, and
a zero-demand flow scored against a schedule that still delivers `1` (so the
zero-score conjunct is exercised on a schedule outside the first conjunct's
hypotheses). -/
theorem claim_C10_score_range_witness :
    (0 ≤ compute_flow_score_fast (build_distance_table 1) (build_delay_table 1)
        { f := 0, x := 0, y := 0, tf := 0, s := 1, m1 := 0, n1 := 0, m2 := 0, n2 := 0 }
        [{ t := 0, x := 0, y := 0, z := 1 }] ∧
     compute_flow_score_fast (build_distance_table 1) (build_delay_table 1)
        { f := 0, x := 0, y := 0, tf := 0, s := 1, m1 := 0, n1 := 0, m2 := 0, n2 := 0 }
        [{ t := 0, x := 0, y := 0, z := 1 }] ≤ 100) ∧
    compute_flow_score_fast (build_distance_table 1) (build_delay_table 1)
        { f := 0, x := 0, y := 0, tf := 0, s := 0, m1 := 0, n1 := 0, m2 := 0, n2 := 0 }
        [{ t := 0, x := 0, y := 0, z := 1 }] = 0 :=
  ⟨(claim_C10_score_range 1 1
    { f := 0, x := 0, y := 0, tf := 0, s := 1, m1 := 0, n1 := 0, m2 := 0, n2 := 0 }
    [{ t := 0, x := 0, y := 0, z := 1 }]
    (by
      intro it hit
      rcases List.mem_singleton.mp hit with rfl
      norm_num)
    (by
      simp only [total_z, List.map_cons, List.map_nil, List.sum_cons, List.sum_nil]
      norm_num)).1,
   (claim_C10_score_range 1 1
    { f := 0, x := 0, y := 0, tf := 0, s := 1, m1 := 0, n1 := 0, m2 := 0, n2 := 0 }
    [{ t := 0, x := 0, y := 0, z := 1 }]
    (by
      intro it hit
      rcases List.mem_singleton.mp hit with rfl
      norm_num)
    (by
      simp only [total_z, List.map_cons, List.map_nil, List.sum_cons, List.sum_nil]
      norm_num)).2
    { f := 0, x := 0, y := 0, tf := 0, s := 0, m1 := 0, n1 := 0, m2 := 0, n2 := 0 }
    [{ t := 0, x := 0, y := 0, z := 1 }]
    (by norm_num)⟩

theorem rect_cells_length (fl : Flow) :
    (rect_cells fl).length =
      (fl.m2 - fl.m1 + 1).toNat * (fl.n2 - fl.n1 + 1).toNat := by
  simp [rect_cells, Function.comp_def]

theorem select_diverse_length_lower (top_k : ℤ) (rest kept : List CandidateInfo) :
    kept.length ≤ (select_diverse top_k rest kept).length := by
  induction rest generalizing kept with
  | nil => simp [select_diverse]
  | cons c rest ih =>
    simp only [select_diverse]
    split_ifs with h1 h2
    · exact ih kept
    · calc kept.length ≤ (kept ++ [c]).length := by simp
        _ ≤ _ := ih (kept ++ [c])
    · exact le_refl _

theorem select_diverse_length_upper (top_k : ℤ) (rest kept : List CandidateInfo)
    (h : (kept.length : ℤ) ≤ top_k) :
    ((select_diverse top_k rest kept).length : ℤ) ≤ top_k := by
  induction rest generalizing kept with
  | nil => simpa [select_diverse] using h
  | cons c rest ih =>
    simp only [select_diverse]
    split_ifs with h1 h2
    · exact ih kept h
    · apply ih (kept ++ [c])
      simp only [List.length_append, List.length_cons, List.length_nil]
      push_cast
      omega
    · exact h

theorem select_diverse_length_total (top_k : ℤ) (rest kept : List CandidateInfo) :
    (select_diverse top_k rest kept).length ≤ kept.length + rest.length := by
  induction rest generalizing kept with
  | nil => simp [select_diverse]
  | cons c rest ih =>
    simp only [select_diverse]
    split_ifs with h1 h2
    · calc (select_diverse top_k rest kept).length ≤ kept.length + rest.length := ih kept
        _ ≤ kept.length + (c :: rest).length := by simp
    · calc (select_diverse top_k rest (kept ++ [c])).length
          ≤ (kept ++ [c]).length + rest.length := ih (kept ++ [c])
        _ = kept.length + (c :: rest).length := by simp; omega
    · simp

theorem sort_candidates_length (raw : List CandidateInfo) :
    (sort_candidates raw).length = raw.length := by
  classical
  exact (List.mergeSort_perm raw _).length_eq

/-- Claim C1 (amended): provided at least one raw candidate passes the
admission filter, the flow's final candidate list has size at least 1 and at
most 8, bounded above also by the rectangle cell count and by the number of
admitted raw candidates.  (The original lower bound of 2 fails: with a
single admitted raw candidate the selection loop can only produce one.) -/
theorem claim_C1_candidate_list_size (dist_table delay_table : List ℝ)
    (pre_bw : ℤ → ℤ → ℤ → ℝ) (T max_time_window : ℤ) (fl : Flow)
    (hne : raw_candidates dist_table delay_table pre_bw T max_time_window fl ≠ []) :
    1 ≤ (build_flow_candidates dist_table delay_table pre_bw T max_time_window
        fl).length ∧
    (build_flow_candidates dist_table delay_table pre_bw T max_time_window
        fl).length ≤ 8 ∧
    (build_flow_candidates dist_table delay_table pre_bw T max_time_window
        fl).length ≤ (rect_cells fl).length ∧
    (build_flow_candidates dist_table delay_table pre_bw T max_time_window
        fl).length ≤
      (raw_candidates dist_table delay_table pre_bw T max_time_window fl).length := by
  have hlen : (sort_candidates (raw_candidates dist_table delay_table pre_bw T
      max_time_window fl)).length =
      (raw_candidates dist_table delay_table pre_bw T max_time_window fl).length :=
    sort_candidates_length _
  obtain ⟨c0, rest, hsort⟩ : ∃ c0 rest,
      sort_candidates (raw_candidates dist_table delay_table pre_bw T
        max_time_window fl) = c0 :: rest := by
    cases hs : sort_candidates (raw_candidates dist_table delay_table pre_bw T
        max_time_window fl) with
    | nil =>
      exfalso
      apply hne
      rw [hs] at hlen
      exact List.length_eq_zero.mp hlen.symm
    | cons a l => exact ⟨a, l, rfl⟩
  have hrest : rest.length + 1 =
      (raw_candidates dist_table delay_table pre_bw T max_time_window fl).length := by
    rw [← hlen, hsort]
    simp
  have htopk_le : top_k_of fl
      (raw_candidates dist_table delay_table pre_bw T max_time_window fl).length ≤ 8 := by
    unfold top_k_of
    omega
  have htopk_ge : (2 : ℤ) ≤ top_k_of fl
      (raw_candidates dist_table delay_table pre_bw T max_time_window fl).length := by
    unfold top_k_of
    omega
  have hraw_le : (raw_candidates dist_table delay_table pre_bw T max_time_window
      fl).length ≤ (rect_cells fl).length := by
    unfold raw_candidates
    calc (((rect_cells fl).map _).filter _).length
        ≤ ((rect_cells fl).map _).length := List.length_filter_le _ _
      _ = (rect_cells fl).length := List.length_map _ _
  simp only [build_flow_candidates, hsort]
  have h1 : 1 ≤ (select_diverse (top_k_of fl
      (raw_candidates dist_table delay_table pre_bw T max_time_window fl).length)
      rest [c0]).length := by
    have := select_diverse_length_lower (top_k_of fl
      (raw_candidates dist_table delay_table pre_bw T max_time_window fl).length)
      rest [c0]
    simpa using this
  have h8 : (select_diverse (top_k_of fl
      (raw_candidates dist_table delay_table pre_bw T max_time_window fl).length)
      rest [c0]).length ≤ 8 := by
    have := select_diverse_length_upper (top_k_of fl
      (raw_candidates dist_table delay_table pre_bw T max_time_window fl).length)
      rest [c0] (by simp; omega)
    omega
  have hcnt : (select_diverse (top_k_of fl
      (raw_candidates dist_table delay_table pre_bw T max_time_window fl).length)
      rest [c0]).length ≤
      (raw_candidates dist_table delay_table pre_bw T max_time_window fl).length := by
    have := select_diverse_length_total (top_k_of fl
      (raw_candidates dist_table delay_table pre_bw T max_time_window fl).length)
      rest [c0]
    simp at this
    omega
  exact ⟨h1, h8, le_trans hcnt hraw_le, hcnt⟩

theorem rect_cells_unit : rect_cells unit_flow = [(0, 0)] := by
  simp only [rect_cells, unit_flow]
  decide

theorem raw_candidates_unit :
    raw_candidates [] [] (fun _ _ _ => 0) 1 60 unit_flow =
      [make_candidate [] [] (fun _ _ _ => 0) 1 60 unit_flow 0 0] := by
  have hd : (make_candidate [] [] (fun _ _ _ => 0) 1 60 unit_flow 0 0).distance ≤ 2 := by
    norm_num [make_candidate, unit_flow]
  unfold raw_candidates
  rw [rect_cells_unit]
  simp [hd]

theorem sorted_unit :
    sort_candidates [make_candidate [] [] (fun _ _ _ => 0) 1 60 unit_flow 0 0] =
      [make_candidate [] [] (fun _ _ _ => 0) 1 60 unit_flow 0 0] := by
  classical
  exact List.perm_singleton.mp (List.mergeSort_perm _ _)

/-- Counterexample to claim C1 as stated: for the one-cell rectangle of
`unit_flow` (whose single cell is admitted by the distance clause of the
filter), the final candidate list has length 1, below the claimed minimum
of 2. -/
theorem claim_C1_counterexample :
    (build_flow_candidates [] [] (fun _ _ _ => 0) 1 60 unit_flow).length = 1 ∧
    ¬ 2 ≤ (build_flow_candidates [] [] (fun _ _ _ => 0) 1 60 unit_flow).length := by
  have hlen : (build_flow_candidates [] [] (fun _ _ _ => 0) 1 60 unit_flow).length = 1 := by
    simp only [build_flow_candidates, raw_candidates_unit, sorted_unit]
    simp [select_diverse]
  exact ⟨hlen, by rw [hlen]; omega⟩

/-- Witness for the amended claim C1 at the concrete `unit_flow` input. -/
theorem claim_C1_candidate_list_size_witness :
    1 ≤ (build_flow_candidates [] [] (fun _ _ _ => 0) 1 60 unit_flow).length ∧
    (build_flow_candidates [] [] (fun _ _ _ => 0) 1 60 unit_flow).length ≤ 8 ∧
    (build_flow_candidates [] [] (fun _ _ _ => 0) 1 60 unit_flow).length ≤
      (rect_cells unit_flow).length ∧
    (build_flow_candidates [] [] (fun _ _ _ => 0) 1 60 unit_flow).length ≤
      (raw_candidates [] [] (fun _ _ _ => 0) 1 60 unit_flow).length :=
  claim_C1_candidate_list_size [] [] (fun _ _ _ => 0) 1 60 unit_flow
    (by rw [raw_candidates_unit]; simp)

theorem local_step_best_mono (dist_table delay_table : List ℝ)
    (cands : List (List CandidateInfo)) (slots : List (List (List TimeSlotInfo)))
    (cap : ℤ × ℤ × ℤ → ℝ) (flows : List Flow) (rng : ℕ → ℕ) (st : SearchState) :
    st.best_score ≤
      (local_step dist_table delay_table cands slots cap flows rng st).best_score := by
  unfold local_step
  split_ifs with h1
  · exact le_refl _
  · rw [apply_ite SearchState.best_score]
    split_ifs with h2
    · dsimp only
      have : (0 : ℝ) < 1e-9 := by norm_num
      linarith
    · exact le_refl _

open Classical in
/-- Claim C7: a local-search iteration replaces the current and best solution
exactly when the decoded score of the mutated solution strictly exceeds the
best score by more than `1e-9`; a rejected mutation leaves the current
solution equal to the last accepted one; and across all iterations the best
score is monotonically non-decreasing. -/
theorem claim_C7_hill_climbing (dist_table delay_table : List ℝ)
    (cands : List (List CandidateInfo)) (slots : List (List (List TimeSlotInfo)))
    (cap : ℤ × ℤ × ℤ → ℝ) (flows : List Flow) (rng : ℕ → ℕ) (st : SearchState)
    (h : st.no_improve ≤ 20) :
    ((local_step dist_table delay_table cands slots cap flows rng st).best_score =
       if st.best_score + 1e-9 <
           (greedy_allocate dist_table delay_table cands slots cap flows
             (mutate_solution cands flows.length st.problematic rng st.pos
               st.solution).1).2
       then (greedy_allocate dist_table delay_table cands slots cap flows
             (mutate_solution cands flows.length st.problematic rng st.pos
               st.solution).1).2
       else st.best_score) ∧
    ((local_step dist_table delay_table cands slots cap flows rng st).solution =
       if st.best_score + 1e-9 <
           (greedy_allocate dist_table delay_table cands slots cap flows
             (mutate_solution cands flows.length st.problematic rng st.pos
               st.solution).1).2
       then (mutate_solution cands flows.length st.problematic rng st.pos
         st.solution).1
       else st.solution) ∧
    ((local_step dist_table delay_table cands slots cap flows rng st).best_solution =
       if st.best_score + 1e-9 <
           (greedy_allocate dist_table delay_table cands slots cap flows
             (mutate_solution cands flows.length st.problematic rng st.pos
               st.solution).1).2
       then (mutate_solution cands flows.length st.problematic rng st.pos
         st.solution).1
       else st.best_solution) ∧
    (∀ (st2 : SearchState) (n : ℕ),
       ((local_step dist_table delay_table cands slots cap flows rng)^[n]
           st2).best_score ≤
         ((local_step dist_table delay_table cands slots cap flows rng)^[n + 1]
           st2).best_score) := by
  have hnb : ¬ 20 < st.no_improve := by omega
  refine ⟨?_, ?_, ?_, ?_⟩
  · simp only [local_step, if_neg hnb]
    rw [apply_ite SearchState.best_score]
  · simp only [local_step, if_neg hnb]
    rw [apply_ite SearchState.solution]
  · simp only [local_step, if_neg hnb]
    rw [apply_ite SearchState.best_solution]
  · intro st2 n
    rw [Function.iterate_succ_apply']
    exact local_step_best_mono dist_table delay_table cands slots cap flows rng _

/-- Witness for claim C7: the monotonicity conjunct at a concrete state and
iteration count. -/
theorem claim_C7_hill_climbing_witness :
    ((local_step [] [] [] [] (fun _ => 0) [] (fun _ => 0))^[0]
        ls_state0).best_score ≤
      ((local_step [] [] [] [] (fun _ => 0) [] (fun _ => 0))^[0 + 1]
        ls_state0).best_score :=
  (claim_C7_hill_climbing [] [] [] [] (fun _ => 0) [] (fun _ => 0) ls_state0
    (by norm_num [ls_state0])).2.2.2 ls_state0 0

/-- Counterexample to claim C8 as stated: with problematic flow `0` having
two candidates and current index `0`, the draw `0` re-selects index `0`, so
the mutated solution equals the current one. -/
theorem claim_C8_counterexample :
    1 < (([[⟨0, 0, 0, 0, 0, [], 0⟩, ⟨0, 0, 0, 0, 0, [], 0⟩]] :
        List (List CandidateInfo)).getD 0 []).length ∧
    (fun _ : ℕ => 0) 0 % 10 < 7 ∧
    (mutate_solution [[⟨0, 0, 0, 0, 0, [], 0⟩, ⟨0, 0, 0, 0, 0, [], 0⟩]] 1 [0]
        (fun _ => 0) 0 [0]).1 = [0] := by
  refine ⟨by decide, by decide, ?_⟩
  decide

/-- Claim C8 (amended): in the problematic-flow branch, when the picked flow
has more than one candidate, the mutated solution sets that flow's entry to
the next draw modulo the candidate count — a valid index in
`[0, num_cands)`, not necessarily different from the current index. -/
theorem claim_C8_mutation_in_range (cands : List (List CandidateInfo))
    (flows_len : ℕ) (problematic : List ℕ) (rng : ℕ → ℕ) (pos : ℕ)
    (sol : List ℕ) (hp : problematic ≠ []) (hbranch : rng pos % 10 < 7)
    (hnc : 1 < (cands.getD
        (problematic.getD (rng (pos + 1) % problematic.length) 0) []).length) :
    (mutate_solution cands flows_len problematic rng pos sol).1 =
      sol.set (problematic.getD (rng (pos + 1) % problematic.length) 0)
        (rng (pos + 2) % (cands.getD
          (problematic.getD (rng (pos + 1) % problematic.length) 0) []).length) ∧
    rng (pos + 2) % (cands.getD
        (problematic.getD (rng (pos + 1) % problematic.length) 0) []).length <
      (cands.getD
        (problematic.getD (rng (pos + 1) % problematic.length) 0) []).length := by
  constructor
  · unfold mutate_solution
    rw [if_pos (And.intro hp hbranch)]
    dsimp only
    rw [if_pos hnc]
  · exact Nat.mod_lt _ (by omega)

/-- Witness for the amended claim C8: draw `1` selects the other of two
candidates. -/
theorem claim_C8_mutation_in_range_witness :
    (mutate_solution [[⟨0, 0, 0, 0, 0, [], 0⟩, ⟨0, 0, 0, 0, 0, [], 0⟩]] 1 [0]
        (fun _ => 1) 0 [0]).1 = ([0] : List ℕ).set 0 1 ∧ (1 : ℕ) < 2 := by
  have h := claim_C8_mutation_in_range
    [[⟨0, 0, 0, 0, 0, [], 0⟩, ⟨0, 0, 0, 0, 0, [], 0⟩]] 1 [0] (fun _ => 1) 0 [0]
    (by decide) (by decide) (by decide)
  exact ⟨h.1, h.2⟩

end UAV
